import Mathlib

/-!
Verification development for the exercise-tracking CLI.

The Python modules are shallowly embedded:
  * numeric amounts, weights and set counts are modelled by `ℚ`
    (Python int/float arithmetic idealised as exact rationals);
  * Python's `int(x)` cast (truncation toward zero) is `pyInt`;
  * Python division, which raises `ZeroDivisionError` on a zero
    denominator, is the `Option`-valued `divQ`;
  * Python dicts are total functions into `Option`;
  * Python strings compare lexicographically by code point, which is the
    `≤` of `List Char` on `String.data`.
-/

/-- Python's `int()` cast from a number to an integer truncates toward
zero: floor for non-negative arguments, ceiling for negative ones. -/
def pyInt (q : ℚ) : ℤ := if 0 ≤ q then ⌊q⌋ else ⌈q⌉

/-- Python division: raises `ZeroDivisionError` (modelled as `none`) when
the denominator is zero. -/
def divQ (a b : ℚ) : Option ℚ := if b = 0 then none else some (a / b)

/-- Update one key of a dict modelled as a total function into `Option`. -/
def mapSet {α : Type} (m : String → Option α) (k : String) (v : Option α) :
    String → Option α :=
  fun k2 => if k2 = k then v else m k2

/-- One logged exercise entry, as built by `add.py` (lines 114-121).
`weight` and `sets` are read back with `entry.get("weight", 0)` and
`entry.get("sets", 1)`, hence optional here. -/
structure Entry where
  exercise_type : String
  amount : ℚ
  unit : String := ""
  weight : Option ℚ := none
  sets : Option ℚ := none
  timestamp : String := ""
deriving DecidableEq

/-- The per-exercise-type aggregate built by
`calculate_total_by_exercise` in `helpers.py` (lines 36-77). -/
structure Totals where
  amount : ℚ
  weight_total : ℚ
  sets_total : ℚ
deriving DecidableEq

/-- One goal snapshot: a Python dict whose keys `daily`, `weekly`,
`sets`, `weight`, `effective_date` may each be absent
(`goal_data.get(...)` supplies the defaults at the use sites). -/
structure Goal where
  daily : Option ℚ := none
  weekly : Option ℚ := none
  sets : Option ℚ := none
  weight : Option ℚ := none
  effective_date : Option String := none
deriving DecidableEq

/-- The record `calculate_progress` builds for one exercise type
(`helpers.py` lines 103-108). -/
structure ProgressResult where
  reps : ℤ
  weight : ℤ
  weekly_goal_only : Bool
  weekly_goal_met : Bool
deriving DecidableEq

/-- Loop body of `calculate_total_by_exercise` (`helpers.py` lines
55-75): add one entry's contribution to the totals dict. -/
def addEntryTotals (totals : String → Option Totals) (e : Entry) :
    String → Option Totals :=
  let s := e.sets.getD 1
  let w := e.weight.getD 0
  let t := (totals e.exercise_type).getD ⟨0, 0, 0⟩
  mapSet totals e.exercise_type
    (some ⟨t.amount + e.amount * s, t.weight_total + e.amount * w * s,
           t.sets_total + s⟩)

/-- `calculate_total_by_exercise` (`helpers.py` lines 36-77) restricted
to the list of entries stored under the requested date (an absent date
is the empty list). -/
def calculate_total_by_exercise (entries : List Entry) :
    String → Option Totals :=
  entries.foldl addEntryTotals (fun _ => none)

/-- The multi-date merge loop of `list.py` (lines 88-97): keys present
on both sides are summed field by field, keys present on one side are
copied. -/
def mergeTotals (m1 m2 : String → Option Totals) : String → Option Totals :=
  fun k =>
    match m1 k, m2 k with
    | some a, some b =>
        some ⟨a.amount + b.amount, a.weight_total + b.weight_total,
              a.sets_total + b.sets_total⟩
    | some a, none => some a
    | none, some b => some b
    | none, none => none

/-- The aggregated amount of one exercise type, read as `0` when the
type is absent from the totals dict. -/
def totalAmountOf (totals : String → Option Totals) (ex : String) : ℚ :=
  match totals ex with
  | some t => t.amount
  | none => 0

/-- The reps part of `calculate_progress` (`helpers.py` lines 114-127):
the pair is (percentage, weekly-goal-met flag).  A branch whose guard
mentions `exercise_type in totals` is only reachable when the totals
entry is present, hence the outer match. -/
def repsPart (t : Option Totals) (dg wg gs : ℚ) : Option (ℤ × Bool) :=
  match t with
  | none => some (0, false)
  | some tt =>
      if 0 < dg then
        (divQ tt.amount (dg * gs)).map
          (fun r => (min 100 (pyInt (r * 100)), false))
      else if 0 < wg then
        (divQ tt.amount (wg * gs)).map
          (fun r => (min 100 (pyInt (r * 100)), decide (wg * gs ≤ tt.amount)))
      else some (0, false)

/-- The weight part of `calculate_progress` (`helpers.py` lines
129-138). -/
def weightPart (t : Option Totals) (dg wg gs gw : ℚ) : Option ℤ :=
  match t with
  | none => some 0
  | some tt =>
      if 0 < gw then
        let twg := (if 0 < dg then dg else wg) * gs * gw
        if 0 < twg then
          (divQ tt.weight_total twg).map (fun w => min 100 (pyInt (w * 100)))
        else some 0
      else some 0

/-- The body of `calculate_progress` for one exercise type with a goal
(`helpers.py` lines 96-138).  `none` models a `ZeroDivisionError`. -/
def progressFor (totals : String → Option Totals) (ex : String) (g : Goal) :
    Option ProgressResult :=
  let dg := g.daily.getD 0
  let wg := g.weekly.getD 0
  let gs := g.sets.getD 1
  let gw := g.weight.getD 0
  match repsPart (totals ex) dg wg gs, weightPart (totals ex) dg wg gs gw with
  | some (r, met), some w =>
      some ⟨r, w, decide (dg = 0 ∧ 0 < wg), met⟩
  | _, _ => none

/-- `calculate_progress` (`helpers.py` lines 79-140): iterate over the
goals dict building one `ProgressResult` per exercise type; a
`ZeroDivisionError` anywhere aborts the whole call (`none`). -/
def calculate_progress (totals : String → Option Totals) :
    List (String × Goal) → Option (List (String × ProgressResult))
  | [] => some []
  | (ex, g) :: rest =>
      match progressFor totals ex g, calculate_progress totals rest with
      | some p, some r => some ((ex, p) :: r)
      | _, _ => none

/-- Python string comparison: lexicographic by code point, modelled on
the character lists underlying the strings. -/
def pyStrLe (a b : String) : Prop := a.data ≤ b.data

instance (a b : String) : Decidable (pyStrLe a b) :=
  inferInstanceAs (Decidable (a.data ≤ b.data))

/-- Per-day totals of one exercise type collected by the single-exercise
loop of `graph.py` (lines 187-199): (total_reps, total_weight,
total_sets).  The exercise-type comparison there is case-insensitive. -/
def graphDayTotals (exercise : String) (entries : List Entry) : ℚ × ℚ × ℚ :=
  entries.foldl
    (fun acc e =>
      if e.exercise_type.toLower = exercise.toLower then
        let s := e.sets.getD 1
        (acc.1 + e.amount * s, acc.2.1 + e.amount * e.weight.getD 0 * s,
         acc.2.2 + s)
      else acc)
    (0, 0, 0)

/-- One day's weight-per-rep sample (`graph.py` lines 203-207): the
division happens only under the `total_reps > 0` guard, otherwise the
day contributes `0`. -/
def dayWeightPerRep (exercise : String) (entries : List Entry) : Option ℚ :=
  let t := graphDayTotals exercise entries
  if 0 < t.1 then divQ t.2.1 t.1 else some 0

/-- The effective date of a goal snapshot as used by `graph.py` (lines
265 and 274): `g.get("effective_date", "2023-01-01")`. -/
def effDate (g : Goal) : String := g.effective_date.getD "2023-01-01"

/-- The sort key relation of `all_goals.sort(key=lambda g:
g.get("effective_date", "2023-01-01"))` in `graph.py` line 265. -/
def byEffDate (a b : Goal) : Prop := pyStrLe (effDate a) (effDate b)

instance : DecidableRel byEffDate :=
  fun a b => inferInstanceAs (Decidable (pyStrLe (effDate a) (effDate b)))

instance : IsTotal Goal byEffDate :=
  ⟨fun a b => le_total (effDate a).data (effDate b).data⟩

instance : IsTrans Goal byEffDate :=
  ⟨fun _ _ _ h1 h2 => le_trans h1 h2⟩

/-- `graph.py` line 265: Python's `list.sort` is a stable sort by the
effective-date key; any two stable sorts by the same key agree, so it is
modelled by stable insertion sort. -/
def sortGoals (l : List Goal) : List Goal := List.insertionSort byEffDate l

/-- The selection loop of `graph.py` lines 272-276: scan the (sorted)
goal list, repeatedly overwriting the result with any snapshot whose
effective date is `≤` the query date, so the last qualifying snapshot
wins. -/
def scanApplicable (q : String) (l : List Goal) : Option Goal :=
  l.foldl (fun acc g => if pyStrLe (effDate g) q then some g else acc) none

/-- Structural form of `scanApplicable`: the last qualifying element,
found from the tail.  Used only in proofs. -/
def lastQual (q : String) : List Goal → Option Goal
  | [] => none
  | a :: l =>
      match lastQual q l with
      | some g => some g
      | none => if pyStrLe (effDate a) q then some a else none

/-- Goal resolution (`graph.py` lines 258-276): merge the goal history
with the current goal appended last (`all_goals = goal_history +
[goal_data]`, the current goal being optional in the §4.3 contract),
sort ascending by effective date, and take the last snapshot whose
effective date is `≤` the query date. -/
def resolveEffectiveGoal (history : List Goal) (current : Option Goal)
    (queryDate : String) : Option Goal :=
  scanApplicable queryDate (sortGoals (history ++ current.toList))

/-- An exercise-type definition (`data.py` lines 27-31). -/
structure ExerciseType where
  unit : String
  muscle_groups : List String
deriving DecidableEq

/-- The persisted dataset (`data.py`): four dicts keyed by date or by
exercise-type name. -/
structure Dataset where
  entries : String → Option (List Entry)
  goals : String → Option Goal
  goal_history : String → Option (List Goal)
  exercise_types : String → Option ExerciseType

/-- `goal --delete` (`goal.py` lines 70-84): archive the current goal
snapshot at the end of the history list (creating the list first when
absent), then remove it from the goals dict; a missing goal leaves the
dataset unchanged. -/
def goalDelete (d : Dataset) (ex : String) : Dataset :=
  match d.goals ex with
  | some g =>
      { d with
        goal_history :=
          mapSet d.goal_history ex (some ((d.goal_history ex).getD [] ++ [g])),
        goals := mapSet d.goals ex none }
  | none => d

/-- `clear --goals` (`clear.py` lines 35-43): `data["goals"] = {}`
followed by a save; the goal history is not touched. -/
def clearGoals (d : Dataset) : Dataset :=
  { d with goals := fun _ => none }

/-- The goal-setting path of the `goal` command (`goal.py` lines
86-135, 170), for an existing exercise type with neither `--list` nor
`--delete`: initialise a placeholder goal when none exists, copy the
pre-update goal, apply the provided options, and if anything was
provided stamp today's date and append the copied pre-update goal to
the history. -/
def goalSet (d : Dataset) (ex : String) (daily weekly sets weight : Option ℚ)
    (today : String) : Dataset :=
  let g0 : Goal :=
    match d.goals ex with
    | some g => g
    | none => { sets := some 3, weight := some 0, effective_date := some today }
  let current_goal := g0
  let changed := daily.isSome || weekly.isSome || sets.isSome || weight.isSome
  let g1 : Goal :=
    { daily := match daily with | some v => some v | none => g0.daily,
      weekly := match weekly with | some v => some v | none => g0.weekly,
      sets := match sets with | some v => some v | none => g0.sets,
      weight := match weight with | some v => some v | none => g0.weight,
      effective_date := g0.effective_date }
  if changed then
    { d with
      goals := mapSet d.goals ex (some { g1 with effective_date := some today }),
      goal_history :=
        mapSet d.goal_history ex
          (some ((d.goal_history ex).getD [] ++ [current_goal])) }
  else
    { d with goals := mapSet d.goals ex (some g1) }

/-- Numeric value of a decimal digit character. -/
def digitVal (c : Char) : ℕ := c.toNat - 48

/-- Numeric value of a list of decimal digit characters. -/
def digitsVal (cs : List Char) : ℕ := cs.foldl (fun n c => 10 * n + digitVal c) 0

/-- Gregorian leap-year rule, as applied by `datetime`. -/
def isLeapYear (y : ℕ) : Bool :=
  y % 4 == 0 && (y % 100 != 0 || y % 400 == 0)

/-- Number of days in a month, as enforced by the `datetime`
constructor. -/
def daysInMonth (y m : ℕ) : ℕ :=
  if m = 2 then (if isLeapYear y then 29 else 28)
  else if m = 4 ∨ m = 6 ∨ m = 9 ∨ m = 11 then 30
  else 31

/-- `validate_date` (`helpers.py` lines 11-17):
`datetime.strptime(date_str, "%Y-%m-%d")` succeeds exactly when the
string is four digits, a dash, a one-or-two-digit month in 1..12, a
dash, and a one-or-two-digit day that exists in that month, with
nothing left over and the year at least 1. -/
def validate_date (s : String) : Bool :=
  match s.data with
  | y1 :: y2 :: y3 :: y4 :: '-' :: rest =>
      (y1.isDigit && y2.isDigit && y3.isDigit && y4.isDigit) &&
      (let y := digitsVal [y1, y2, y3, y4]
       let mcs := rest.takeWhile Char.isDigit
       match rest.dropWhile Char.isDigit with
       | '-' :: rest2 =>
           let dcs := rest2.takeWhile Char.isDigit
           let m := digitsVal mcs
           let d := digitsVal dcs
           (mcs.all Char.isDigit) &&
           (rest2.dropWhile Char.isDigit).isEmpty &&
           (decide (1 ≤ mcs.length) && decide (mcs.length ≤ 2)) &&
           (decide (1 ≤ dcs.length) && decide (dcs.length ≤ 2)) &&
           (decide (1 ≤ m) && decide (m ≤ 12)) &&
           (decide (1 ≤ d) && decide (d ≤ daysInMonth y m)) &&
           decide (1 ≤ y)
       | _ => false)
  | _ => false

/-- The `add` command (`add.py` lines 20-123), modelled as the mapping
from the persisted dataset before the command to the persisted dataset
after it.  Interactive prompt answers are extra parameters
(`promptUnit`, `promptMuscles`, `promptAmount`, `promptSets`).  The two
validation failures return before `save_data` is reached, so the
persisted dataset is the original one. -/
def addPersisted (d : Dataset) (exercise_type : String) (date : Option String)
    (reps time distance weight sets : Option ℚ) (custom : Bool)
    (promptUnit : String) (promptMuscles : List String)
    (promptAmount promptSets : ℚ) (today timestamp : String) : Dataset :=
  let dateVal : Option String :=
    match date with
    | none => some today
    | some dt => if validate_date dt then some dt else none
  match dateVal with
  | none => d
  | some dt =>
      let data :=
        if custom && (d.exercise_types exercise_type).isNone then
          { d with
            exercise_types :=
              mapSet d.exercise_types exercise_type
                (some ⟨promptUnit, promptMuscles⟩) }
        else d
      match data.exercise_types exercise_type with
      | none => d
      | some et =>
          let u := et.unit
          let amount0 : Option ℚ :=
            if u = "reps" && reps.isSome then reps
            else if u = "seconds" && time.isSome then time
            else if u = "km" && distance.isSome then distance
            else none
          let amount := amount0.getD promptAmount
          let entry_weight0 : Option ℚ :=
            match weight, data.goals exercise_type with
            | none, some g => g.weight
            | w, _ => w
          let entry_weight := entry_weight0.getD 0
          let entry_sets := sets.getD promptSets
          let entry : Entry :=
            { exercise_type := exercise_type, amount := amount, unit := u,
              weight := some entry_weight, sets := some entry_sets,
              timestamp := timestamp }
          { data with
            entries :=
              mapSet data.entries dt
                (some ((data.entries dt).getD [] ++ [entry])) }

lemma addEntryTotals_comm (m : String → Option Totals) (a b : Entry) :
    addEntryTotals (addEntryTotals m a) b = addEntryTotals (addEntryTotals m b) a := by
  funext k
  simp only [addEntryTotals, mapSet]
  by_cases hab : a.exercise_type = b.exercise_type
  · rw [hab]
    by_cases hk : k = b.exercise_type
    · simp only [if_pos hk, if_pos rfl, Option.getD_some]
      cases hm : m b.exercise_type <;>
        simp only [hm, Option.getD_some, Option.getD_none, if_true,
          Option.some.injEq, Totals.mk.injEq] <;>
        first
        | rfl
        | (refine ⟨?_, ?_, ?_⟩ <;> ring)
    · simp [if_neg hk]
  · have hba : ¬ b.exercise_type = a.exercise_type := fun h => hab h.symm
    by_cases hk1 : k = a.exercise_type
    · simp [hk1, hab, hba]
    · by_cases hk2 : k = b.exercise_type
      · simp [hk2, hab, hba]
      · simp [if_neg hk1, if_neg hk2]

lemma mergeTotals_none_right (m : String → Option Totals) :
    mergeTotals m (fun _ => none) = m := by
  funext k
  simp only [mergeTotals]
  cases h : m k <;> rfl

lemma addEntryTotals_merge (m n : String → Option Totals) (e : Entry) :
    addEntryTotals (mergeTotals m n) e = mergeTotals m (addEntryTotals n e) := by
  funext k
  by_cases hk : k = e.exercise_type
  · subst hk
    simp only [addEntryTotals, mergeTotals, mapSet, if_pos rfl]
    cases hm : m e.exercise_type <;> cases hn : n e.exercise_type <;>
      simp only [hm, hn, Option.getD_some, Option.getD_none, if_true,
        Option.some.injEq, Totals.mk.injEq] <;>
      first
      | rfl
      | (refine ⟨?_, ?_, ?_⟩ <;> ring)
  · simp only [addEntryTotals, mergeTotals, mapSet, if_neg hk]

lemma mergeTotals_assoc (m1 m2 m3 : String → Option Totals) :
    mergeTotals (mergeTotals m1 m2) m3 = mergeTotals m1 (mergeTotals m2 m3) := by
  funext k
  simp only [mergeTotals]
  cases h1 : m1 k <;> cases h2 : m2 k <;> cases h3 : m3 k <;>
    simp [Totals.mk.injEq, add_assoc]

lemma foldl_addEntryTotals_merge (l : List Entry) :
    ∀ m, l.foldl addEntryTotals m = mergeTotals m (calculate_total_by_exercise l) := by
  induction l with
  | nil => intro m; simp [calculate_total_by_exercise, mergeTotals_none_right]
  | cons e t ih =>
      intro m
      have hcalc : calculate_total_by_exercise (e :: t) =
          mergeTotals (addEntryTotals (fun _ => none) e)
            (calculate_total_by_exercise t) := by
        simp only [calculate_total_by_exercise, List.foldl_cons]
        exact ih _
      rw [List.foldl_cons, ih, hcalc, ← mergeTotals_assoc]
      have hme : addEntryTotals m e =
          mergeTotals m (addEntryTotals (fun _ => none) e) := by
        conv_lhs =>
          rw [show m = mergeTotals m (fun _ => none) from
                (mergeTotals_none_right m).symm]
        exact addEntryTotals_merge m (fun _ => none) e
      rw [hme]

lemma calc_total_append (l1 l2 : List Entry) :
    calculate_total_by_exercise (l1 ++ l2) =
      mergeTotals (calculate_total_by_exercise l1)
        (calculate_total_by_exercise l2) := by
  simp only [calculate_total_by_exercise, List.foldl_append]
  exact foldl_addEntryTotals_merge l2 _

/-- C5: per-exercise-type aggregation is order-independent (aggregating
any permutation of the entries yields the identical totals dict), and
aggregating a partition of the entries jointly equals the pointwise
field-by-field merge of the per-part totals, folded exactly as the
multi-date loop of `list.py` lines 88-97 does. -/
theorem calculate_total_order_invariant :
    (∀ l1 l2 : List Entry, l1.Perm l2 →
        calculate_total_by_exercise l1 = calculate_total_by_exercise l2) ∧
    (∀ parts : List (List Entry),
        calculate_total_by_exercise parts.flatten =
          parts.foldl
            (fun acc l => mergeTotals acc (calculate_total_by_exercise l))
            (fun _ => none)) := by
  constructor
  · intro l1 l2 h
    exact h.foldl_eq' (fun x _ y _ z => addEntryTotals_comm z x y) _
  · intro parts
    have key : ∀ (ps : List (List Entry)) (m : String → Option Totals),
        ps.foldl (fun acc l => mergeTotals acc (calculate_total_by_exercise l))
            m =
          mergeTotals m (calculate_total_by_exercise ps.flatten) := by
      intro ps
      induction ps with
      | nil => intro m; simp [calculate_total_by_exercise, mergeTotals_none_right]
      | cons p t ih =>
          intro m
          rw [List.foldl_cons, ih, List.flatten_cons, calc_total_append,
            mergeTotals_assoc]
    rw [key]
    funext k
    simp only [mergeTotals]
    cases h : calculate_total_by_exercise parts.flatten k <;> rfl

/-- Witness for C5: swapping two concrete entries leaves the aggregated
totals unchanged. -/
theorem calculate_total_order_invariant_witness :
    calculate_total_by_exercise
        [{ exercise_type := "pushup", amount := 10, sets := some 2 },
         { exercise_type := "squat", amount := 5 }] =
      calculate_total_by_exercise
        [{ exercise_type := "squat", amount := 5 },
         { exercise_type := "pushup", amount := 10, sets := some 2 }] :=
  calculate_total_order_invariant.1 _ _ (List.Perm.swap _ _ _)

lemma calculate_progress_mem :
    ∀ (gs : List (String × Goal)) (t : String → Option Totals)
      (res : List (String × ProgressResult)),
      calculate_progress t gs = some res →
      ∀ ex g, (ex, g) ∈ gs →
        ∃ p, progressFor t ex g = some p ∧ (ex, p) ∈ res := by
  intro gs
  induction gs with
  | nil =>
      intro t res _ ex g hm
      simp at hm
  | cons hd rest ih =>
      intro t res hc ex g hm
      obtain ⟨ex0, g0⟩ := hd
      simp only [calculate_progress] at hc
      cases hp : progressFor t ex0 g0 with
      | none => rw [hp] at hc; exact absurd hc (by simp)
      | some p0 =>
          cases hr : calculate_progress t rest with
          | none => rw [hp, hr] at hc; exact absurd hc (by simp)
          | some r =>
              rw [hp, hr] at hc
              simp only [Option.some.injEq] at hc
              subst hc
              rcases List.mem_cons.mp hm with heq | htl
              · have hex : ex = ex0 := congrArg Prod.fst heq
                have hg : g = g0 := congrArg Prod.snd heq
                subst hex
                subst hg
                exact ⟨p0, hp, List.mem_cons_self _ _⟩
              · obtain ⟨p, hp2, hmem⟩ := ih t r hr ex g htl
                exact ⟨p, hp2, List.mem_cons_of_mem _ hmem⟩

lemma calculate_progress_isSome :
    ∀ (gs : List (String × Goal)) (t : String → Option Totals),
      (∀ pr ∈ gs, (progressFor t pr.1 pr.2).isSome) →
      (calculate_progress t gs).isSome := by
  intro gs
  induction gs with
  | nil => intro t _; rfl
  | cons hd rest ih =>
      intro t h
      obtain ⟨ex0, g0⟩ := hd
      have h0 : (progressFor t ex0 g0).isSome := h (ex0, g0) (List.mem_cons_self _ _)
      obtain ⟨p0, hp0⟩ := Option.isSome_iff_exists.mp h0
      have hr : (calculate_progress t rest).isSome :=
        ih t (fun pr hpr => h pr (List.mem_cons_of_mem _ hpr))
      obtain ⟨r, hrr⟩ := Option.isSome_iff_exists.mp hr
      simp only [calculate_progress, hp0, hrr]
      rfl

lemma pyInt_of_nonneg {q : ℚ} (h : 0 ≤ q) : pyInt q = ⌊q⌋ := if_pos h

lemma divQ_of_ne {a b : ℚ} (h : b ≠ 0) : divQ a b = some (a / b) := by
  simp [divQ, h]

lemma min_pct_bounds {a b : ℚ} (ha : 0 ≤ a) (hb : 0 < b) :
    0 ≤ min 100 (pyInt (a / b * 100)) ∧ min 100 (pyInt (a / b * 100)) ≤ 100 := by
  have hq : 0 ≤ a / b * 100 := by positivity
  rw [pyInt_of_nonneg hq]
  exact ⟨le_min (by norm_num) (Int.floor_nonneg.mpr hq), min_le_left _ _⟩

lemma repsPart_isSome (t : Option Totals) (dg wg gs : ℚ) (hgs : 0 < gs) :
    (repsPart t dg wg gs).isSome := by
  cases t with
  | none => rfl
  | some tt =>
      simp only [repsPart]
      by_cases hd : 0 < dg
      · rw [if_pos hd, divQ_of_ne (ne_of_gt (mul_pos hd hgs))]
        rfl
      · rw [if_neg hd]
        by_cases hw : 0 < wg
        · rw [if_pos hw, divQ_of_ne (ne_of_gt (mul_pos hw hgs))]
          rfl
        · rw [if_neg hw]
          rfl

lemma weightPart_isSome (t : Option Totals) (dg wg gs gw : ℚ) :
    (weightPart t dg wg gs gw).isSome := by
  cases t with
  | none => rfl
  | some tt =>
      simp only [weightPart]
      by_cases hg : 0 < gw
      · rw [if_pos hg]
        by_cases ht : 0 < (if 0 < dg then dg else wg) * gs * gw
        · rw [if_pos ht, divQ_of_ne (ne_of_gt ht)]
          rfl
        · rw [if_neg ht]
          rfl
      · rw [if_neg hg]
        rfl

lemma progressFor_isSome (t : String → Option Totals) (ex : String) (g : Goal)
    (hgs : 0 < g.sets.getD 1) : (progressFor t ex g).isSome := by
  have h1 := repsPart_isSome (t ex) (g.daily.getD 0) (g.weekly.getD 0)
    (g.sets.getD 1) hgs
  have h2 := weightPart_isSome (t ex) (g.daily.getD 0) (g.weekly.getD 0)
    (g.sets.getD 1) (g.weight.getD 0)
  obtain ⟨⟨r, met⟩, hr⟩ := Option.isSome_iff_exists.mp h1
  obtain ⟨w, hw⟩ := Option.isSome_iff_exists.mp h2
  simp only [progressFor, hr, hw]
  rfl

/-- Totals dict used in the C7 theorems: pushup logged 25 reps over 3
sets. -/
def c7Totals : String → Option Totals :=
  fun s => if s = "pushup" then some ⟨25, 0, 3⟩ else none

/-- C7 counterexample: the reps division of `calculate_progress` is
guarded only by `daily_goal > 0`, which does not make the denominator
`daily_goal * goal_sets` positive.  With a goal of `{daily: 10, sets:
0}` and a present totals entry, the code divides by zero
(`ZeroDivisionError`, modelled as `none`), contradicting the claim that
every denominator is evaluated only under a guard establishing it is
positive. -/
theorem progress_division_guard_counterexample :
    calculate_progress c7Totals
        [("pushup", { daily := some 10, sets := some 0 })] = none := by
  have ht : c7Totals "pushup" = some ⟨25, 0, 3⟩ := by simp [c7Totals]
  have hreps :
      repsPart (c7Totals "pushup") 10 0 0 = none := by
    rw [ht]
    simp only [repsPart]
    rw [if_pos (by norm_num : (0 : ℚ) < 10)]
    rw [show (10 : ℚ) * 0 = 0 by ring]
    simp [divQ]
  simp only [calculate_progress, progressFor, Option.getD_some, Option.getD_none]
  rw [hreps]

/-- C7 amended: provided every goal's `sets` value is positive (the
stored default is 3 and `goal_sets` defaults to 1), the progress
computation performs no division by zero — every denominator is then
positive under its guard — and the weight-per-rep day series never
divides by zero for any input at all, yielding 0 on a day whose total
reps are not positive. -/
theorem progress_division_guarded :
    (∀ (t : String → Option Totals) (gs : List (String × Goal)),
        (∀ pr ∈ gs, 0 < pr.2.sets.getD 1) →
        (calculate_progress t gs).isSome) ∧
    (∀ (ex : String) (entries : List Entry),
        (dayWeightPerRep ex entries).isSome ∧
        (¬ 0 < (graphDayTotals ex entries).1 →
          dayWeightPerRep ex entries = some 0)) := by
  constructor
  · intro t gs h
    exact calculate_progress_isSome gs t
      (fun pr hpr => progressFor_isSome t pr.1 pr.2 (h pr hpr))
  · intro ex entries
    constructor
    · simp only [dayWeightPerRep]
      by_cases hr : 0 < (graphDayTotals ex entries).1
      · rw [if_pos hr, divQ_of_ne (ne_of_gt hr)]
        rfl
      · rw [if_neg hr]
        rfl
    · intro hr
      simp only [dayWeightPerRep]
      rw [if_neg hr]

/-- Witness for C7: with the seeded goal `{daily: 10, sets: 3}` the
progress computation succeeds. -/
theorem progress_division_guarded_witness :
    (calculate_progress c7Totals
        [("pushup", { daily := some 10, sets := some 3 })]).isSome :=
  progress_division_guarded.1 _ _
    (by
      intro pr hpr
      simp only [List.mem_singleton] at hpr
      rw [hpr]
      norm_num)

lemma repsPart_bounds (topt : Option Totals) (dg wg gs : ℚ) (r : ℤ) (met : Bool)
    (hamt : ∀ tt, topt = some tt → 0 ≤ tt.amount) (hs : 0 ≤ gs)
    (h : repsPart topt dg wg gs = some (r, met)) : 0 ≤ r ∧ r ≤ 100 := by
  cases topt with
  | none =>
      simp only [repsPart, Option.some.injEq, Prod.mk.injEq] at h
      rw [← h.1]
      norm_num
  | some tt =>
      have ha : 0 ≤ tt.amount := hamt tt rfl
      simp only [repsPart] at h
      by_cases h1 : 0 < dg
      · rw [if_pos h1] at h
        by_cases hz : dg * gs = 0
        · rw [hz] at h
          simp [divQ] at h
        · rw [divQ_of_ne hz] at h
          simp only [Option.map_some', Option.some.injEq, Prod.mk.injEq] at h
          rw [← h.1]
          have hpos : 0 < dg * gs :=
            lt_of_le_of_ne (mul_nonneg h1.le hs) (Ne.symm hz)
          exact min_pct_bounds ha hpos
      · rw [if_neg h1] at h
        by_cases h2 : 0 < wg
        · rw [if_pos h2] at h
          by_cases hz : wg * gs = 0
          · rw [hz] at h
            simp [divQ] at h
          · rw [divQ_of_ne hz] at h
            simp only [Option.map_some', Option.some.injEq, Prod.mk.injEq] at h
            rw [← h.1]
            have hpos : 0 < wg * gs :=
              lt_of_le_of_ne (mul_nonneg h2.le hs) (Ne.symm hz)
            exact min_pct_bounds ha hpos
        · rw [if_neg h2] at h
          simp only [Option.some.injEq, Prod.mk.injEq] at h
          rw [← h.1]
          norm_num

lemma weightPart_bounds (topt : Option Totals) (dg wg gs gw : ℚ) (w : ℤ)
    (hwt : ∀ tt, topt = some tt → 0 ≤ tt.weight_total)
    (h : weightPart topt dg wg gs gw = some w) : 0 ≤ w ∧ w ≤ 100 := by
  cases topt with
  | none =>
      simp only [weightPart, Option.some.injEq] at h
      rw [← h]
      norm_num
  | some tt =>
      have ha : 0 ≤ tt.weight_total := hwt tt rfl
      simp only [weightPart] at h
      by_cases h1 : 0 < gw
      · rw [if_pos h1] at h
        by_cases h2 : 0 < (if 0 < dg then dg else wg) * gs * gw
        · rw [if_pos h2, divQ_of_ne (ne_of_gt h2)] at h
          simp only [Option.map_some', Option.some.injEq] at h
          rw [← h]
          exact min_pct_bounds ha h2
        · rw [if_neg h2] at h
          simp only [Option.some.injEq] at h
          rw [← h]
          norm_num
      · rw [if_neg h1] at h
        simp only [Option.some.injEq] at h
        rw [← h]
        norm_num

lemma progressFor_bounds (t : String → Option Totals) (ex : String) (g : Goal)
    (p : ProgressResult)
    (ht : ∀ tt, t ex = some tt → 0 ≤ tt.amount ∧ 0 ≤ tt.weight_total)
    (hs : 0 ≤ g.sets.getD 1)
    (hp : progressFor t ex g = some p) :
    0 ≤ p.reps ∧ p.reps ≤ 100 ∧ 0 ≤ p.weight ∧ p.weight ≤ 100 := by
  simp only [progressFor] at hp
  cases hr : repsPart (t ex) (g.daily.getD 0) (g.weekly.getD 0) (g.sets.getD 1) with
  | none => rw [hr] at hp; exact absurd hp (by simp)
  | some pr =>
      obtain ⟨r, met⟩ := pr
      cases hw2 : weightPart (t ex) (g.daily.getD 0) (g.weekly.getD 0)
          (g.sets.getD 1) (g.weight.getD 0) with
      | none => rw [hr, hw2] at hp; exact absurd hp (by simp)
      | some w =>
          rw [hr, hw2] at hp
          simp only [Option.some.injEq] at hp
          have hb1 := repsPart_bounds (t ex) (g.daily.getD 0) (g.weekly.getD 0)
            (g.sets.getD 1) r met (fun tt htt => (ht tt htt).1) hs hr
          have hb2 := weightPart_bounds (t ex) (g.daily.getD 0) (g.weekly.getD 0)
            (g.sets.getD 1) (g.weight.getD 0) w (fun tt htt => (ht tt htt).2) hw2
          rw [← hp]
          exact ⟨hb1.1, hb1.2, hb2.1, hb2.2⟩

lemma calculate_progress_mem_rev :
    ∀ (gs : List (String × Goal)) (t : String → Option Totals)
      (res : List (String × ProgressResult)),
      calculate_progress t gs = some res →
      ∀ pr ∈ res, ∃ exg, exg ∈ gs ∧ pr.1 = exg.1 ∧
        progressFor t exg.1 exg.2 = some pr.2 := by
  intro gs
  induction gs with
  | nil =>
      intro t res hc pr hpr
      simp only [calculate_progress, Option.some.injEq] at hc
      rw [← hc] at hpr
      simp at hpr
  | cons hd rest ih =>
      intro t res hc pr hpr
      obtain ⟨ex0, g0⟩ := hd
      simp only [calculate_progress] at hc
      cases hp : progressFor t ex0 g0 with
      | none => rw [hp] at hc; exact absurd hc (by simp)
      | some p0 =>
          cases hrr : calculate_progress t rest with
          | none => rw [hp, hrr] at hc; exact absurd hc (by simp)
          | some r =>
              rw [hp, hrr] at hc
              simp only [Option.some.injEq] at hc
              rw [← hc] at hpr
              rcases List.mem_cons.mp hpr with heq | htl
              · subst heq
                exact ⟨(ex0, g0), List.mem_cons_self _ _, rfl, hp⟩
              · obtain ⟨exg, hmem, hfst, hpf⟩ := ih t r hrr pr htl
                exact ⟨exg, List.mem_cons_of_mem _ hmem, hfst, hpf⟩

/-- C6: for a totals dict whose `amount`, `weight_total` and
`sets_total` values are all non-negative and a goals dict whose
targets, sets and weight values are all non-negative, every `reps` and
`weight` percentage produced by `calculate_progress` is an integer in
the closed range 0..100; the percentages are computed by `pyInt`, the
truncation (not rounding) of the exact quotient. -/
theorem calculate_progress_percent_bounds
    (t : String → Option Totals) (gs : List (String × Goal))
    (res : List (String × ProgressResult))
    (htot : ∀ s tt, t s = some tt →
        0 ≤ tt.amount ∧ 0 ≤ tt.weight_total ∧ 0 ≤ tt.sets_total)
    (hgoal : ∀ pr ∈ gs, 0 ≤ pr.2.daily.getD 0 ∧ 0 ≤ pr.2.weekly.getD 0 ∧
        0 ≤ pr.2.sets.getD 1 ∧ 0 ≤ pr.2.weight.getD 0)
    (hc : calculate_progress t gs = some res) :
    ∀ pr ∈ res, 0 ≤ pr.2.reps ∧ pr.2.reps ≤ 100 ∧
      0 ≤ pr.2.weight ∧ pr.2.weight ≤ 100 := by
  intro pr hpr
  obtain ⟨exg, hmem, _, hpf⟩ := calculate_progress_mem_rev gs t res hc pr hpr
  obtain ⟨hgd, hgw, hgs, _⟩ := hgoal exg hmem
  exact progressFor_bounds t exg.1 exg.2 pr.2
    (fun tt htt => ⟨(htot exg.1 tt htt).1, (htot exg.1 tt htt).2.1⟩)
    hgs hpf

/-- Totals dict used in the C6 witness. -/
def c6Totals : String → Option Totals :=
  fun s => if s = "pushup" then some ⟨25, 0, 3⟩ else none

/-- Witness for C6: the concrete progress row computed for totals 25
against goal `{daily: 10, sets: 3}` (83 percent) is within bounds. -/
theorem calculate_progress_percent_bounds_witness :
    0 ≤ (⟨83, 0, false, false⟩ : ProgressResult).reps ∧
    (⟨83, 0, false, false⟩ : ProgressResult).reps ≤ 100 ∧
    0 ≤ (⟨83, 0, false, false⟩ : ProgressResult).weight ∧
    (⟨83, 0, false, false⟩ : ProgressResult).weight ≤ 100 := by
  have ht : c6Totals "pushup" = some ⟨25, 0, 3⟩ := by simp [c6Totals]
  have hreps : repsPart (c6Totals "pushup") 10 0 3 = some (83, false) := by
    rw [ht]
    simp only [repsPart]
    rw [if_pos (by norm_num : (0 : ℚ) < 10),
      divQ_of_ne (by norm_num : (10 : ℚ) * 3 ≠ 0)]
    simp only [Option.map_some', Option.some.injEq, Prod.mk.injEq]
    refine ⟨?_, trivial⟩
    rw [pyInt_of_nonneg (by positivity)]
    rw [show ((25 : ℚ) / (10 * 3) * 100) = 250 / 3 by norm_num]
    rw [show ⌊(250 : ℚ) / 3⌋ = 83 by norm_num]
    norm_num
  have hweight : weightPart (c6Totals "pushup") 10 0 3 0 = some 0 := by
    rw [ht]
    simp only [weightPart]
    rw [if_neg (by norm_num : ¬ (0 : ℚ) < 0)]
  have hdec : decide ((10 : ℚ) = 0 ∧ (0 : ℚ) < 0) = false :=
    decide_eq_false (by norm_num)
  have hc : calculate_progress c6Totals
      [("pushup", { daily := some 10, sets := some 3 })] =
      some [("pushup", ⟨83, 0, false, false⟩)] := by
    simp only [calculate_progress, progressFor, Option.getD_some,
      Option.getD_none]
    rw [hreps, hweight, hdec]
  exact calculate_progress_percent_bounds c6Totals
    [("pushup", { daily := some 10, sets := some 3 })]
    [("pushup", ⟨83, 0, false, false⟩)]
    (fun s tt htt => by
      by_cases hs : s = "pushup"
      · rw [hs] at htt
        rw [ht] at htt
        obtain rfl := Option.some.inj htt
        norm_num
      · simp [c6Totals, hs] at htt)
    (fun pr hpr => by
      simp only [List.mem_singleton] at hpr
      rw [hpr]
      norm_num)
    hc ("pushup", ⟨83, 0, false, false⟩) (by simp)

lemma progressFor_daily_reps (t : String → Option Totals) (ex : String)
    (g : Goal) (p : ProgressResult)
    (hd : 0 < g.daily.getD 0) (hs : 0 ≤ g.sets.getD 1)
    (ha : 0 ≤ totalAmountOf t ex)
    (hp : progressFor t ex g = some p) :
    p.reps = min 100 ⌊100 * totalAmountOf t ex /
        (g.daily.getD 0 * g.sets.getD 1)⌋ := by
  cases h : t ex with
  | none =>
      have hamt : totalAmountOf t ex = 0 := by simp [totalAmountOf, h]
      simp only [progressFor, h, repsPart, weightPart, Option.some.injEq] at hp
      rw [← hp, hamt]
      norm_num
  | some tt =>
      have hamt : totalAmountOf t ex = tt.amount := by simp [totalAmountOf, h]
      rw [hamt] at ha ⊢
      simp only [progressFor, h, repsPart, weightPart] at hp
      rw [if_pos hd] at hp
      by_cases hz : g.daily.getD 0 * g.sets.getD 1 = 0
      · rw [hz] at hp
        simp [divQ] at hp
      · have hpos : 0 < g.daily.getD 0 * g.sets.getD 1 :=
          lt_of_le_of_ne (mul_nonneg hd.le hs) (Ne.symm hz)
        rw [divQ_of_ne hz] at hp
        simp only [Option.map_some'] at hp
        cases hw : (if 0 < g.weight.getD 0 then
            (if 0 < (if 0 < g.daily.getD 0 then g.daily.getD 0 else
                g.weekly.getD 0) * g.sets.getD 1 * g.weight.getD 0 then
              (divQ tt.weight_total ((if 0 < g.daily.getD 0 then g.daily.getD 0
                else g.weekly.getD 0) * g.sets.getD 1 * g.weight.getD 0)).map
                (fun w => min 100 (pyInt (w * 100)))
            else some 0)
          else some 0) with
        | none => rw [hw] at hp; exact absurd hp (by simp)
        | some w =>
            rw [hw] at hp
            simp only [Option.some.injEq] at hp
            rw [← hp]
            have hq : 0 ≤ tt.amount / (g.daily.getD 0 * g.sets.getD 1) * 100 :=
              mul_nonneg (div_nonneg ha hpos.le) (by norm_num)
            show min 100 (pyInt (tt.amount /
                (g.daily.getD 0 * g.sets.getD 1) * 100)) =
              min 100 ⌊100 * tt.amount / (g.daily.getD 0 * g.sets.getD 1)⌋
            rw [pyInt_of_nonneg hq]
            congr 2
            ring

/-- C1 amended: for every totals dict whose aggregated amount for the
type is non-negative and goals dict entry whose sets value is
non-negative, whenever the daily target is positive and
`calculate_progress` returns, the reps percentage for that type is
min(100, floor(100 * totalAmount / (dailyTarget * goalSets))), with
totalAmount read as 0 when the type is absent and goalSets defaulting
to 1. -/
theorem calculate_progress_daily_formula
    (t : String → Option Totals) (gs : List (String × Goal))
    (res : List (String × ProgressResult)) (ex : String) (g : Goal)
    (hmem : (ex, g) ∈ gs) (hd : 0 < g.daily.getD 0) (hs : 0 ≤ g.sets.getD 1)
    (ha : 0 ≤ totalAmountOf t ex)
    (hc : calculate_progress t gs = some res) :
    ∃ p, (ex, p) ∈ res ∧
      p.reps = min 100 ⌊100 * totalAmountOf t ex /
          (g.daily.getD 0 * g.sets.getD 1)⌋ := by
  obtain ⟨p, hpf, hpmem⟩ := calculate_progress_mem gs t res hc ex g hmem
  exact ⟨p, hpmem, progressFor_daily_reps t ex g p hd hs ha hpf⟩

/-- Totals dict used in the C1 counterexample: aggregated amount -25
(negative amounts are accepted by the `add` command, e.g.
`--reps -25`). -/
def c1Totals : String → Option Totals :=
  fun s => if s = "pushup" then some ⟨-25, 0, 1⟩ else none

/-- C1 counterexample: Python's `int()` truncates toward zero, not
floor.  For totalAmount -25, dailyTarget 30 and goalSets defaulting
to 1, the code returns reps = -83 while the claimed formula
min(100, floor(100 * -25 / 30)) evaluates to -84. -/
theorem calculate_progress_daily_floor_counterexample :
    calculate_progress c1Totals [("pushup", { daily := some 30 })] =
      some [("pushup", ⟨-83, 0, false, false⟩)] ∧
    min 100 ⌊100 * totalAmountOf c1Totals "pushup" / ((30 : ℚ) * 1)⌋ = -84 := by
  constructor
  · have ht : c1Totals "pushup" = some ⟨-25, 0, 1⟩ := by simp [c1Totals]
    have hreps : repsPart (c1Totals "pushup") 30 0 1 = some (-83, false) := by
      rw [ht]
      simp only [repsPart]
      rw [if_pos (by norm_num : (0 : ℚ) < 30),
        divQ_of_ne (by norm_num : (30 : ℚ) * 1 ≠ 0)]
      simp only [Option.map_some', Option.some.injEq, Prod.mk.injEq]
      refine ⟨?_, trivial⟩
      rw [pyInt, if_neg (by norm_num : ¬ (0 : ℚ) ≤ -25 / (30 * 1) * 100)]
      rw [show (-25 : ℚ) / (30 * 1) * 100 = -(250 / 3) by norm_num]
      rw [Int.ceil_neg, show ⌊(250 : ℚ) / 3⌋ = 83 by norm_num]
      norm_num
    have hweight : weightPart (c1Totals "pushup") 30 0 1 0 = some 0 := by
      rw [ht]
      simp only [weightPart]
      rw [if_neg (by norm_num : ¬ (0 : ℚ) < 0)]
    have hdec : decide ((30 : ℚ) = 0 ∧ (0 : ℚ) < 0) = false :=
      decide_eq_false (by norm_num)
    simp only [calculate_progress, progressFor, Option.getD_some,
      Option.getD_none]
    rw [hreps, hweight, hdec]
  · have hamt : totalAmountOf c1Totals "pushup" = -25 := by
      simp [totalAmountOf, c1Totals]
    rw [hamt]
    have hfl : ⌊(100 : ℚ) * -25 / (30 * 1)⌋ = -84 := by norm_num
    rw [hfl, min_def, if_neg (by norm_num : ¬ (100 : ℤ) ≤ -84)]

lemma eval_progress_daily_25_10_3 :
    calculate_progress c6Totals
        [("pushup", { daily := some 10, sets := some 3 })] =
      some [("pushup", ⟨83, 0, false, false⟩)] := by
  have ht : c6Totals "pushup" = some ⟨25, 0, 3⟩ := by simp [c6Totals]
  have hreps : repsPart (c6Totals "pushup") 10 0 3 = some (83, false) := by
    rw [ht]
    simp only [repsPart]
    rw [if_pos (by norm_num : (0 : ℚ) < 10),
      divQ_of_ne (by norm_num : (10 : ℚ) * 3 ≠ 0)]
    simp only [Option.map_some', Option.some.injEq, Prod.mk.injEq]
    refine ⟨?_, trivial⟩
    rw [pyInt_of_nonneg (by positivity)]
    rw [show ((25 : ℚ) / (10 * 3) * 100) = 250 / 3 by norm_num]
    rw [show ⌊(250 : ℚ) / 3⌋ = 83 by norm_num]
    norm_num
  have hweight : weightPart (c6Totals "pushup") 10 0 3 0 = some 0 := by
    rw [ht]
    simp only [weightPart]
    rw [if_neg (by norm_num : ¬ (0 : ℚ) < 0)]
  have hdec : decide ((10 : ℚ) = 0 ∧ (0 : ℚ) < 0) = false :=
    decide_eq_false (by norm_num)
  simp only [calculate_progress, progressFor, Option.getD_some,
    Option.getD_none]
  rw [hreps, hweight, hdec]

/-- Witness for C1: the claim's own example (totalAmount 25, daily
target 10, goal sets 3) yields the formula value, 83. -/
theorem calculate_progress_daily_formula_witness :
    ∃ p, ("pushup", p) ∈
        [("pushup", (⟨83, 0, false, false⟩ : ProgressResult))] ∧
      p.reps = min 100 ⌊100 * totalAmountOf c6Totals "pushup" /
          ((10 : ℚ) * 3)⌋ :=
  calculate_progress_daily_formula c6Totals
    [("pushup", { daily := some 10, sets := some 3 })]
    [("pushup", ⟨83, 0, false, false⟩)] "pushup"
    { daily := some 10, sets := some 3 }
    (by simp) (by show (0 : ℚ) < 10; norm_num)
    (by show (0 : ℚ) ≤ 3; norm_num)
    (by simp [totalAmountOf, c6Totals])
    eval_progress_daily_25_10_3

lemma progressFor_wgo (t : String → Option Totals) (ex : String) (g : Goal)
    (p : ProgressResult) (hp : progressFor t ex g = some p) :
    (p.weekly_goal_only = true ↔
      (g.daily.getD 0 = 0 ∧ 0 < g.weekly.getD 0)) := by
  simp only [progressFor] at hp
  cases hr : repsPart (t ex) (g.daily.getD 0) (g.weekly.getD 0)
      (g.sets.getD 1) with
  | none => rw [hr] at hp; exact absurd hp (by simp)
  | some pr =>
      obtain ⟨r, met⟩ := pr
      cases hw : weightPart (t ex) (g.daily.getD 0) (g.weekly.getD 0)
          (g.sets.getD 1) (g.weight.getD 0) with
      | none => rw [hr, hw] at hp; exact absurd hp (by simp)
      | some w =>
          rw [hr, hw] at hp
          simp only [Option.some.injEq] at hp
          rw [← hp]
          exact decide_eq_true_iff

lemma progressFor_weekly (t : String → Option Totals) (ex : String) (g : Goal)
    (p : ProgressResult)
    (hd : g.daily.getD 0 = 0) (hw : 0 < g.weekly.getD 0)
    (ha : 0 ≤ totalAmountOf t ex) (hs : 0 < g.sets.getD 1)
    (hp : progressFor t ex g = some p) :
    p.reps = min 100 ⌊100 * totalAmountOf t ex /
        (g.weekly.getD 0 * g.sets.getD 1)⌋ ∧
    (p.weekly_goal_met = true ↔
      g.weekly.getD 0 * g.sets.getD 1 ≤ totalAmountOf t ex) := by
  have hnd : ¬ 0 < g.daily.getD 0 := by rw [hd]; exact lt_irrefl 0
  have hposd : 0 < g.weekly.getD 0 * g.sets.getD 1 := mul_pos hw hs
  cases h : t ex with
  | none =>
      have hamt : totalAmountOf t ex = 0 := by simp [totalAmountOf, h]
      simp only [progressFor, h, repsPart, weightPart, Option.some.injEq] at hp
      rw [← hp, hamt]
      constructor
      · norm_num
      · have hng : ¬ (g.weekly.getD 0 * g.sets.getD 1 ≤ 0) := not_le.mpr hposd
        simp [hng]
  | some tt =>
      have hamt : totalAmountOf t ex = tt.amount := by simp [totalAmountOf, h]
      rw [hamt] at ha ⊢
      have hreps : repsPart (t ex) (g.daily.getD 0) (g.weekly.getD 0)
          (g.sets.getD 1) =
          some (min 100 (pyInt (tt.amount /
              (g.weekly.getD 0 * g.sets.getD 1) * 100)),
            decide (g.weekly.getD 0 * g.sets.getD 1 ≤ tt.amount)) := by
        rw [h]
        simp only [repsPart]
        rw [if_neg hnd, if_pos hw, divQ_of_ne (ne_of_gt hposd)]
        rfl
      simp only [progressFor, hreps] at hp
      cases hww : weightPart (t ex) (g.daily.getD 0) (g.weekly.getD 0)
          (g.sets.getD 1) (g.weight.getD 0) with
      | none => rw [hww] at hp; exact absurd hp (by simp)
      | some w =>
          rw [hww] at hp
          simp only [Option.some.injEq] at hp
          rw [← hp]
          constructor
          · show min 100 (pyInt (tt.amount /
                (g.weekly.getD 0 * g.sets.getD 1) * 100)) = _
            rw [pyInt_of_nonneg
              (mul_nonneg (div_nonneg ha hposd.le) (by norm_num))]
            congr 2
            ring
          · exact decide_eq_true_iff

/-- C2 amended: `weeklyGoalOnly` is true exactly when the daily target
is 0 and the weekly target is positive; and when additionally the
aggregated amount is non-negative and the goal's sets value is
positive, the reps percentage is min(100, floor(100 * totalAmount /
(weeklyTarget * goalSets))) and `weeklyGoalMet` holds exactly when
totalAmount >= weeklyTarget * goalSets. -/
theorem calculate_progress_weekly_formula
    (t : String → Option Totals) (gs : List (String × Goal))
    (res : List (String × ProgressResult)) (ex : String) (g : Goal)
    (hmem : (ex, g) ∈ gs) (hc : calculate_progress t gs = some res) :
    ∃ p, (ex, p) ∈ res ∧
      (p.weekly_goal_only = true ↔
        (g.daily.getD 0 = 0 ∧ 0 < g.weekly.getD 0)) ∧
      (g.daily.getD 0 = 0 → 0 < g.weekly.getD 0 →
        0 ≤ totalAmountOf t ex → 0 < g.sets.getD 1 →
        p.reps = min 100 ⌊100 * totalAmountOf t ex /
            (g.weekly.getD 0 * g.sets.getD 1)⌋ ∧
        (p.weekly_goal_met = true ↔
          g.weekly.getD 0 * g.sets.getD 1 ≤ totalAmountOf t ex)) := by
  obtain ⟨p, hpf, hpmem⟩ := calculate_progress_mem gs t res hc ex g hmem
  exact ⟨p, hpmem, progressFor_wgo t ex g p hpf,
    fun hd hw ha hs => progressFor_weekly t ex g p hd hw ha hs hpf⟩

/-- C2 counterexample: as in C1, Python truncates toward zero.  For a
weekly-only goal with weeklyTarget 30, goalSets defaulting to 1 and
totalAmount -25, the code returns reps = -83 while the claimed formula
min(100, floor(100 * -25 / 30)) evaluates to -84. -/
theorem calculate_progress_weekly_floor_counterexample :
    calculate_progress c1Totals [("pushup", { weekly := some 30 })] =
      some [("pushup", ⟨-83, 0, true, false⟩)] ∧
    min 100 ⌊100 * totalAmountOf c1Totals "pushup" / ((30 : ℚ) * 1)⌋ = -84 := by
  constructor
  · have ht : c1Totals "pushup" = some ⟨-25, 0, 1⟩ := by simp [c1Totals]
    have hreps : repsPart (c1Totals "pushup") 0 30 1 = some (-83, false) := by
      rw [ht]
      simp only [repsPart]
      rw [if_neg (by norm_num : ¬ (0 : ℚ) < 0),
        if_pos (by norm_num : (0 : ℚ) < 30),
        divQ_of_ne (by norm_num : (30 : ℚ) * 1 ≠ 0)]
      simp only [Option.map_some', Option.some.injEq, Prod.mk.injEq]
      constructor
      · rw [pyInt, if_neg (by norm_num : ¬ (0 : ℚ) ≤ -25 / (30 * 1) * 100)]
        rw [show (-25 : ℚ) / (30 * 1) * 100 = -(250 / 3) by norm_num]
        rw [Int.ceil_neg, show ⌊(250 : ℚ) / 3⌋ = 83 by norm_num]
        norm_num
      · show decide ((30 : ℚ) * 1 ≤ -25) = false
        exact decide_eq_false (by norm_num)
    have hweight : weightPart (c1Totals "pushup") 0 30 1 0 = some 0 := by
      rw [ht]
      simp only [weightPart]
      rw [if_neg (by norm_num : ¬ (0 : ℚ) < 0)]
    have hdec : decide (True ∧ (0 : ℚ) < 30) = true :=
      decide_eq_true (by norm_num)
    simp only [calculate_progress, progressFor, Option.getD_some,
      Option.getD_none]
    rw [hreps, hweight, hdec]
  · have hamt : totalAmountOf c1Totals "pushup" = -25 := by
      simp [totalAmountOf, c1Totals]
    rw [hamt]
    have hfl : ⌊(100 : ℚ) * -25 / (30 * 1)⌋ = -84 := by norm_num
    rw [hfl, min_def, if_neg (by norm_num : ¬ (100 : ℤ) ≤ -84)]

/-- Totals dict used in the C2 witness: aggregated amount 99. -/
def c2WitTotals : String → Option Totals :=
  fun s => if s = "pushup" then some ⟨99, 0, 1⟩ else none

lemma eval_progress_weekly_99_100 :
    calculate_progress c2WitTotals [("pushup", { weekly := some 100 })] =
      some [("pushup", ⟨99, 0, true, false⟩)] := by
  have ht : c2WitTotals "pushup" = some ⟨99, 0, 1⟩ := by simp [c2WitTotals]
  have hreps : repsPart (c2WitTotals "pushup") 0 100 1 = some (99, false) := by
    rw [ht]
    simp only [repsPart]
    rw [if_neg (by norm_num : ¬ (0 : ℚ) < 0),
      if_pos (by norm_num : (0 : ℚ) < 100),
      divQ_of_ne (by norm_num : (100 : ℚ) * 1 ≠ 0)]
    simp only [Option.map_some', Option.some.injEq, Prod.mk.injEq]
    constructor
    · rw [pyInt_of_nonneg (by positivity)]
      rw [show ((99 : ℚ) / (100 * 1) * 100) = 99 by norm_num]
      rw [show ⌊(99 : ℚ)⌋ = 99 by norm_num]
      norm_num
    · show decide ((100 : ℚ) * 1 ≤ 99) = false
      exact decide_eq_false (by norm_num)
  have hweight : weightPart (c2WitTotals "pushup") 0 100 1 0 = some 0 := by
    rw [ht]
    simp only [weightPart]
    rw [if_neg (by norm_num : ¬ (0 : ℚ) < 0)]
  have hdec : decide (True ∧ (0 : ℚ) < 100) = true :=
    decide_eq_true (by norm_num)
  simp only [calculate_progress, progressFor, Option.getD_some,
    Option.getD_none]
  rw [hreps, hweight, hdec]

/-- Witness for C2: the claim's own example (weeklyTarget 100, goalSets
defaulting to 1, totalAmount 99) gives the formula value 99 and an
unmet weekly goal. -/
theorem calculate_progress_weekly_formula_witness :
    ∃ p, ("pushup", p) ∈
        [("pushup", (⟨99, 0, true, false⟩ : ProgressResult))] ∧
      p.reps = min 100 ⌊100 * totalAmountOf c2WitTotals "pushup" /
          ((100 : ℚ) * 1)⌋ ∧
      p.weekly_goal_met = false := by
  obtain ⟨p, hpmem, hwgo, hpart⟩ := calculate_progress_weekly_formula
    c2WitTotals [("pushup", { weekly := some 100 })]
    [("pushup", ⟨99, 0, true, false⟩)] "pushup" { weekly := some 100 }
    (by simp) eval_progress_weekly_99_100
  have h99 : totalAmountOf c2WitTotals "pushup" = 99 := by
    simp [totalAmountOf, c2WitTotals]
  obtain ⟨hf, hmet⟩ := hpart rfl (by show (0 : ℚ) < 100; norm_num)
    (by rw [h99]; norm_num) (by show (0 : ℚ) < 1; norm_num)
  refine ⟨p, hpmem, hf, ?_⟩
  have hng : ¬ ((100 : ℚ) * 1 ≤ totalAmountOf c2WitTotals "pushup") := by
    rw [h99]; norm_num
  cases hb : p.weekly_goal_met with
  | false => rfl
  | true => exact absurd (hmet.mp hb) hng

lemma pyStrLe_refl (a : String) : pyStrLe a a := le_refl _

lemma pyStrLe_trans {a b c : String} (h1 : pyStrLe a b) (h2 : pyStrLe b c) :
    pyStrLe a c := le_trans h1 h2

lemma pyStrLe_total (a b : String) : pyStrLe a b ∨ pyStrLe b a :=
  le_total a.data b.data

lemma foldl_scan_aux (q : String) :
    ∀ (l : List Goal) (acc : Option Goal),
      l.foldl (fun acc g => if pyStrLe (effDate g) q then some g else acc) acc =
        match lastQual q l with
        | some g => some g
        | none => acc := by
  intro l
  induction l with
  | nil => intro acc; rfl
  | cons a t ih =>
      intro acc
      rw [List.foldl_cons, ih]
      simp only [lastQual]
      cases hl : lastQual q t with
      | some g => rfl
      | none =>
          by_cases ha : pyStrLe (effDate a) q
          · simp [ha]
          · simp [ha]

lemma scanApplicable_eq_lastQual (q : String) (l : List Goal) :
    scanApplicable q l = lastQual q l := by
  rw [scanApplicable, foldl_scan_aux]
  cases lastQual q l <;> rfl

lemma lastQual_cons_not (q : String) (a : Goal) (s : List Goal)
    (ha : ¬ pyStrLe (effDate a) q) : lastQual q (a :: s) = lastQual q s := by
  simp only [lastQual]
  cases hl : lastQual q s with
  | some g => rfl
  | none => rw [if_neg ha]

lemma lastQual_cons_qual (q : String) (a : Goal) (s : List Goal)
    (ha : pyStrLe (effDate a) q) :
    lastQual q (a :: s) =
      match lastQual q s with
      | some g => some g
      | none => some a := by
  simp only [lastQual]
  cases hl : lastQual q s with
  | some g => rfl
  | none => rw [if_pos ha]

lemma lastQual_mem (q : String) :
    ∀ (s : List Goal) (g : Goal), lastQual q s = some g →
      g ∈ s ∧ pyStrLe (effDate g) q := by
  intro s
  induction s with
  | nil => intro g h; simp [lastQual] at h
  | cons a t ih =>
      intro g h
      simp only [lastQual] at h
      cases hl : lastQual q t with
      | some g' =>
          rw [hl] at h
          obtain rfl : g' = g := Option.some.inj h
          obtain ⟨hm, hq⟩ := ih g' hl
          exact ⟨List.mem_cons_of_mem _ hm, hq⟩
      | none =>
          rw [hl] at h
          by_cases ha : pyStrLe (effDate a) q
          · rw [if_pos ha] at h
            obtain rfl : a = g := Option.some.inj h
            exact ⟨List.mem_cons_self _ _, ha⟩
          · rw [if_neg ha] at h
            exact absurd h (by simp)

lemma lastQual_none_iff (q : String) :
    ∀ (s : List Goal),
      lastQual q s = none ↔ ∀ g ∈ s, ¬ pyStrLe (effDate g) q := by
  intro s
  induction s with
  | nil => simp [lastQual]
  | cons a t ih =>
      constructor
      · intro h g hm
        simp only [lastQual] at h
        cases hl : lastQual q t with
        | some g' => rw [hl] at h; exact absurd h (by simp)
        | none =>
            rw [hl] at h
            rcases List.mem_cons.mp hm with rfl | hm'
            · intro hq
              rw [if_pos hq] at h
              exact absurd h (by simp)
            · exact (ih.mp hl) g hm'
      · intro h
        have ht : lastQual q t = none :=
          ih.mpr (fun g' hg' => h g' (List.mem_cons_of_mem _ hg'))
        simp only [lastQual, ht]
        rw [if_neg (h a (List.mem_cons_self _ _))]

lemma lastQual_insert_not (q : String) (a : Goal)
    (ha : ¬ pyStrLe (effDate a) q) :
    ∀ (s : List Goal),
      lastQual q (List.orderedInsert byEffDate a s) = lastQual q s := by
  intro s
  induction s with
  | nil =>
      simp only [List.orderedInsert]
      exact lastQual_cons_not q a [] ha
  | cons b t ih =>
      simp only [List.orderedInsert]
      by_cases hab : byEffDate a b
      · rw [if_pos hab]
        exact lastQual_cons_not q a _ ha
      · rw [if_neg hab]
        simp only [lastQual, ih]

lemma lastQual_insert_qual (q : String) (a : Goal)
    (ha : pyStrLe (effDate a) q) :
    ∀ (s : List Goal), List.Sorted byEffDate s →
      lastQual q (List.orderedInsert byEffDate a s) =
        some (match lastQual q s with
              | none => a
              | some g => if pyStrLe (effDate a) (effDate g) then g else a) := by
  intro s
  induction s with
  | nil =>
      intro _
      simp only [List.orderedInsert, lastQual]
      simp [ha]
  | cons b t ih =>
      intro hs
      have hst : List.Sorted byEffDate t := hs.of_cons
      have hb_all : ∀ x ∈ t, byEffDate b x := List.rel_of_sorted_cons hs
      simp only [List.orderedInsert]
      by_cases hab : byEffDate a b
      · rw [if_pos hab, lastQual_cons_qual q a _ ha]
        cases hl : lastQual q (b :: t) with
        | none => rfl
        | some g =>
            have hmem := lastQual_mem q (b :: t) g hl
            have hbg : pyStrLe (effDate b) (effDate g) := by
              rcases List.mem_cons.mp hmem.1 with rfl | hgt
              · exact pyStrLe_refl _
              · exact hb_all g hgt
            have hag : pyStrLe (effDate a) (effDate g) := pyStrLe_trans hab hbg
            simp [hag]
      · rw [if_neg hab]
        have hba : pyStrLe (effDate b) (effDate a) :=
          (pyStrLe_total (effDate a) (effDate b)).resolve_left hab
        simp only [lastQual, ih hst]
        have hab2 : ¬ pyStrLe (effDate a) (effDate b) := hab
        cases hl : lastQual q t with
        | some g => rfl
        | none =>
            by_cases hqb : pyStrLe (effDate b) q
            · simp [hqb, hab2]
            · simp [hqb]

lemma sortGoals_sorted (l : List Goal) : List.Sorted byEffDate (sortGoals l) :=
  List.sorted_insertionSort byEffDate l

lemma mem_sortGoals {x : Goal} {l : List Goal} : x ∈ sortGoals l ↔ x ∈ l := by
  simp [sortGoals]

lemma resolve_char (q : String) :
    ∀ (l : List Goal),
      (lastQual q (sortGoals l) = none ↔
        ∀ g ∈ l, ¬ pyStrLe (effDate g) q) ∧
      (∀ g, lastQual q (sortGoals l) = some g →
        g ∈ l ∧ pyStrLe (effDate g) q ∧
        ∀ x ∈ l, pyStrLe (effDate x) q → pyStrLe (effDate x) (effDate g)) := by
  intro l
  induction l with
  | nil =>
      constructor
      · simp [sortGoals, List.insertionSort, lastQual]
      · intro g h
        simp [sortGoals, List.insertionSort, lastQual] at h
  | cons a t ih =>
      have hstep : sortGoals (a :: t) =
          List.orderedInsert byEffDate a (sortGoals t) := rfl
      by_cases ha : pyStrLe (effDate a) q
      · rw [hstep, lastQual_insert_qual q a ha (sortGoals t) (sortGoals_sorted t)]
        constructor
        · constructor
          · intro h
            exact absurd h (by simp)
          · intro h
            exact absurd ha (h a (List.mem_cons_self _ _))
        · intro g hg
          have hv := Option.some.inj hg
          cases hl : lastQual q (sortGoals t) with
          | none =>
              rw [hl] at hv
              have hv2 : a = g := hv
              subst hv2
              refine ⟨List.mem_cons_self _ _, ha, ?_⟩
              intro x hx hqx
              rcases List.mem_cons.mp hx with rfl | hx'
              · exact pyStrLe_refl _
              · have hnone := (lastQual_none_iff q (sortGoals t)).mp hl x
                  (mem_sortGoals.mpr hx')
                exact absurd hqx hnone
          | some g0 =>
              rw [hl] at hv
              have hv2 : (if pyStrLe (effDate a) (effDate g0) then g0 else a)
                  = g := hv
              obtain ⟨hm0, hq0, hmax0⟩ := ih.2 g0 hl
              by_cases hag : pyStrLe (effDate a) (effDate g0)
              · rw [if_pos hag] at hv2
                subst hv2
                refine ⟨List.mem_cons_of_mem _ hm0, hq0, ?_⟩
                intro x hx hqx
                rcases List.mem_cons.mp hx with rfl | hx'
                · exact hag
                · exact hmax0 x hx' hqx
              · rw [if_neg hag] at hv2
                subst hv2
                have hga : pyStrLe (effDate g0) (effDate a) :=
                  (pyStrLe_total (effDate a) (effDate g0)).resolve_left hag
                refine ⟨List.mem_cons_self _ _, ha, ?_⟩
                intro x hx hqx
                rcases List.mem_cons.mp hx with rfl | hx'
                · exact pyStrLe_refl _
                · exact pyStrLe_trans (hmax0 x hx' hqx) hga
      · rw [hstep, lastQual_insert_not q a ha (sortGoals t)]
        constructor
        · rw [ih.1]
          constructor
          · intro h g hm
            rcases List.mem_cons.mp hm with rfl | hm'
            · exact ha
            · exact h g hm'
          · intro h g hm'
            exact h g (List.mem_cons_of_mem _ hm')
        · intro g hg
          obtain ⟨hm, hq, hmax⟩ := ih.2 g hg
          refine ⟨List.mem_cons_of_mem _ hm, hq, ?_⟩
          intro x hx hqx
          rcases List.mem_cons.mp hx with rfl | hx'
          · exact absurd hqx ha
          · exact hmax x hx' hqx

lemma resolve_tiebreak (q : String) (c : Goal) (hq : pyStrLe (effDate c) q) :
    ∀ (hist : List Goal),
      (∀ x ∈ hist, pyStrLe (effDate x) q → pyStrLe (effDate x) (effDate c)) →
      lastQual q (sortGoals (hist ++ [c])) = some c := by
  intro hist
  induction hist with
  | nil =>
      intro _
      show lastQual q (sortGoals [c]) = some c
      simp [sortGoals, List.insertionSort, List.orderedInsert, lastQual, hq]
  | cons a t ih =>
      intro hmax
      have hstep : sortGoals ((a :: t) ++ [c]) =
          List.orderedInsert byEffDate a (sortGoals (t ++ [c])) := rfl
      rw [hstep]
      have ihv := ih (fun x hx => hmax x (List.mem_cons_of_mem _ hx))
      by_cases ha : pyStrLe (effDate a) q
      · rw [lastQual_insert_qual q a ha _ (sortGoals_sorted _), ihv]
        have hac : pyStrLe (effDate a) (effDate c) :=
          hmax a (List.mem_cons_self _ _) ha
        simp [hac]
      · rw [lastQual_insert_not q a ha, ihv]

/-- C3: goal resolution selects, from the history with the optional
current goal appended last, sorted stably ascending by effective date,
the last snapshot whose effective date is at most the query date:
(1) the result is absent exactly when no candidate qualifies; (2) a
returned snapshot is a qualifying candidate of maximal effective date;
(3) a qualifying current goal whose effective date is at least that of
every qualifying history snapshot wins (later-appended wins ties); and
the spec's three concrete examples hold. -/
theorem resolveEffectiveGoal_spec :
    (∀ (h : List Goal) (c : Option Goal) (q : String),
      (resolveEffectiveGoal h c q = none ↔
        ∀ g ∈ h ++ c.toList, ¬ pyStrLe (effDate g) q) ∧
      (∀ g, resolveEffectiveGoal h c q = some g →
        g ∈ h ++ c.toList ∧ pyStrLe (effDate g) q ∧
        ∀ x ∈ h ++ c.toList, pyStrLe (effDate x) q →
          pyStrLe (effDate x) (effDate g)) ∧
      (∀ cg, c = some cg → pyStrLe (effDate cg) q →
        (∀ x ∈ h, pyStrLe (effDate x) q →
          pyStrLe (effDate x) (effDate cg)) →
        resolveEffectiveGoal h c q = some cg)) ∧
    (resolveEffectiveGoal
        [{ daily := some 10, effective_date := some "2023-01-01" },
         { daily := some 20, effective_date := some "2023-06-01" }] none
        "2023-03-15" =
      some { daily := some 10, effective_date := some "2023-01-01" } ∧
     resolveEffectiveGoal
        [{ daily := some 10, effective_date := some "2023-01-01" },
         { daily := some 20, effective_date := some "2023-06-01" }] none
        "2023-07-01" =
      some { daily := some 20, effective_date := some "2023-06-01" } ∧
     resolveEffectiveGoal
        [{ daily := some 10, effective_date := some "2023-01-01" },
         { daily := some 20, effective_date := some "2023-06-01" }] none
        "2022-01-01" = none) := by
  constructor
  · intro h c q
    have hres : resolveEffectiveGoal h c q =
        lastQual q (sortGoals (h ++ c.toList)) := by
      rw [resolveEffectiveGoal, scanApplicable_eq_lastQual]
    refine ⟨?_, ?_, ?_⟩
    · rw [hres, lastQual_none_iff]
      constructor
      · intro hall g hm
        exact hall g (mem_sortGoals.mpr hm)
      · intro hall g hm
        exact hall g (mem_sortGoals.mp hm)
    · intro g hg
      rw [hres] at hg
      exact (resolve_char q (h ++ c.toList)).2 g hg
    · intro cg hcg hq hmax
      subst hcg
      rw [hres]
      exact resolve_tiebreak q cg hq h hmax
  · refine ⟨by decide, by decide, by decide⟩

/-- Witness for C3: the tie-break clause applied to a concrete history
and current goal resolves to the current goal. -/
theorem resolveEffectiveGoal_spec_witness :
    resolveEffectiveGoal
        [{ daily := some 10, effective_date := some "2023-01-01" }]
        (some { daily := some 20, effective_date := some "2023-06-01" })
        "2023-07-01" =
      some { daily := some 20, effective_date := some "2023-06-01" } :=
  (resolveEffectiveGoal_spec.1 _ _ _).2.2 _ rfl (by decide)
    (by
      intro x hx hqx
      simp only [List.mem_singleton] at hx
      subst hx
      decide)

/-- C4 counterexample: the sentinel for a missing effective date is the
fixed string "2023-01-01", not an earliest-possible epoch.  An undated
snapshot sorts after a snapshot dated "2022-01-01" (so not before every
dated snapshot), and for the query date "2021-06-01" it does not
qualify, so resolution is absent instead of returning it. -/
theorem effDate_sentinel_counterexample :
    sortGoals [{ daily := some 5 },
               { daily := some 7, effective_date := some "2022-01-01" }] =
      [{ daily := some 7, effective_date := some "2022-01-01" },
       { daily := some 5 }] ∧
    resolveEffectiveGoal [{ daily := some 5 }]
      (some { daily := some 7, effective_date := some "2022-01-01" })
      "2021-06-01" = none :=
  ⟨by decide, by decide⟩

/-- C4 amended: a candidate snapshot with no recorded effective date is
treated as effective from the fixed sentinel date "2023-01-01" (not the
earliest possible date): its sort key is "2023-01-01", it qualifies for
exactly the query dates at or after "2023-01-01", and it sorts at or
before exactly the snapshots whose effective date is at or after
"2023-01-01". -/
theorem effDate_sentinel (g : Goal) (hg : g.effective_date = none) :
    effDate g = "2023-01-01" ∧
    (∀ q : String, pyStrLe (effDate g) q ↔ pyStrLe "2023-01-01" q) ∧
    (∀ g2 : Goal, byEffDate g g2 ↔ pyStrLe "2023-01-01" (effDate g2)) := by
  have h1 : effDate g = "2023-01-01" := by simp [effDate, hg]
  refine ⟨h1, ?_, ?_⟩
  · intro q
    rw [h1]
  · intro g2
    rw [byEffDate, h1]

/-- Witness for C4's amended claim at a concrete undated snapshot. -/
theorem effDate_sentinel_witness :
    effDate { daily := some 5 } = "2023-01-01" ∧
    (pyStrLe (effDate { daily := some 5 }) "2025-05-05" ↔
      pyStrLe "2023-01-01" "2025-05-05") :=
  ⟨(effDate_sentinel { daily := some 5 } rfl).1,
   (effDate_sentinel { daily := some 5 } rfl).2.1 "2025-05-05"⟩

/-- Dataset with one current goal and empty history, for the C8
theorems. -/
def c8Dataset : Dataset :=
  { entries := fun _ => none,
    goals := fun s =>
      if s = "pushup" then
        some { daily := some 50, sets := some 3, weight := some 0,
               effective_date := some "2023-01-01" }
      else none,
    goal_history := fun _ => none,
    exercise_types := fun s =>
      if s = "pushup" then some ⟨"reps", ["chest"]⟩ else none }

/-- C8 counterexample: `clear --goals` (`clear.py` line 40) deletes the
current goal of every exercise type by wiping the goals dict without
appending anything to the goal history, so the deleted snapshot is
lost, contradicting the claim that every operation deleting a current
goal archives it. -/
theorem goal_delete_archives_counterexample :
    (c8Dataset.goals "pushup").isSome ∧
    (clearGoals c8Dataset).goals "pushup" = none ∧
    (clearGoals c8Dataset).goal_history "pushup" = none :=
  ⟨rfl, rfl, rfl⟩

/-- C8 amended: the `goal --delete` operation archives the deleted
current goal at the end of the exercise type's history; the
`clear --goals` operation instead erases all current goals and leaves
the history untouched, losing the snapshots. -/
theorem goal_delete_archives (d : Dataset) (ex : String) (g : Goal)
    (hg : d.goals ex = some g) :
    ((goalDelete d ex).goals ex = none ∧
     (goalDelete d ex).goal_history ex =
       some ((d.goal_history ex).getD [] ++ [g])) ∧
    ((clearGoals d).goals ex = none ∧
     (clearGoals d).goal_history = d.goal_history) := by
  refine ⟨?_, rfl, rfl⟩
  simp only [goalDelete, hg]
  exact ⟨by simp [mapSet], by simp [mapSet]⟩

/-- Witness for C8's amended claim on a concrete dataset. -/
theorem goal_delete_archives_witness :
    ((goalDelete c8Dataset "pushup").goals "pushup" = none ∧
     (goalDelete c8Dataset "pushup").goal_history "pushup" =
       some ([] ++ [{ daily := some 50, sets := some 3, weight := some 0,
                      effective_date := some "2023-01-01" }])) ∧
    ((clearGoals c8Dataset).goals "pushup" = none ∧
     (clearGoals c8Dataset).goal_history = c8Dataset.goal_history) :=
  goal_delete_archives c8Dataset "pushup" _ rfl

/-- C9: when `add` fails validation (a date not accepted by
`validate_date`, or an unknown exercise type without the custom flag)
the command returns before any `save_data`, so the persisted dataset
after the command equals the dataset before it. -/
theorem add_validation_no_mutation
    (d : Dataset) (exercise_type : String) (date : Option String)
    (reps time distance weight sets : Option ℚ) (custom : Bool)
    (promptUnit : String) (promptMuscles : List String)
    (promptAmount promptSets : ℚ) (today timestamp : String)
    (hfail : (∃ dt, date = some dt ∧ validate_date dt = false) ∨
      (custom = false ∧ d.exercise_types exercise_type = none)) :
    addPersisted d exercise_type date reps time distance weight sets custom
      promptUnit promptMuscles promptAmount promptSets today timestamp = d := by
  rcases hfail with ⟨dt, hdt, hbad⟩ | ⟨hcustom, hmissing⟩
  · subst hdt
    simp [addPersisted, hbad]
  · subst hcustom
    cases date with
    | none => simp [addPersisted, hmissing]
    | some dt =>
        by_cases hv : validate_date dt = true
        · simp [addPersisted, hv, hmissing]
        · simp [addPersisted, hv]

/-- Empty dataset used by the C9 witness. -/
def c9Dataset : Dataset :=
  { entries := fun _ => none, goals := fun _ => none,
    goal_history := fun _ => none, exercise_types := fun _ => none }

/-- Witness for C9: a slash-separated date fails validation and the
persisted dataset is unchanged. -/
theorem add_validation_no_mutation_witness :
    addPersisted c9Dataset "pushup" (some "2023/01/01") none none none none
      none false "reps" [] 10 1 "2023-05-05" "12:00:00" = c9Dataset :=
  add_validation_no_mutation c9Dataset "pushup" (some "2023/01/01") none none
    none none none false "reps" [] 10 1 "2023-05-05" "12:00:00"
    (Or.inl ⟨"2023/01/01", rfl, by decide⟩)

lemma validate_date_accepts : validate_date "2023-01-15" = true := by decide

lemma validate_date_rejects_feb30 : validate_date "2023-02-30" = false := by
  decide

/-- Empty dataset used by the C10 theorems. -/
def c10Dataset : Dataset :=
  { entries := fun _ => none, goals := fun _ => none,
    goal_history := fun _ => none, exercise_types := fun _ => none }

/-- C10: setting any target for an exercise type with no current goal
first creates the placeholder `{sets: 3, weight: 0, effective_date:
today}` (`goal.py` lines 87-92) and then appends that same placeholder
to the goal history (lines 94-96 copy it before the updates, lines
125-135 append the copy), so the history gains a snapshot with no
daily and no weekly target that was never a previously-active goal. -/
theorem goal_set_placeholder_history
    (d : Dataset) (ex : String) (daily weekly sets weight : Option ℚ)
    (today : String)
    (hnone : d.goals ex = none)
    (hchanged : (daily.isSome || weekly.isSome || sets.isSome ||
      weight.isSome) = true) :
    (goalSet d ex daily weekly sets weight today).goal_history ex =
      some ((d.goal_history ex).getD [] ++
        [{ daily := none, weekly := none, sets := some 3, weight := some 0,
           effective_date := some today }]) := by
  simp only [goalSet, hnone]
  rw [if_pos hchanged]
  simp [mapSet]

/-- Witness for C10: setting a daily goal for an exercise type with no
current goal appends the never-active placeholder to its history. -/
theorem goal_set_placeholder_history_witness :
    (goalSet c10Dataset "pushup" (some 50) none none none
        "2023-05-05").goal_history "pushup" =
      some ([] ++
        [{ daily := none, weekly := none, sets := some 3, weight := some 0,
           effective_date := some "2023-05-05" }]) :=
  goal_set_placeholder_history c10Dataset "pushup" (some 50) none none none
    "2023-05-05" rfl rfl
